import Mathlib

/-!
Verification of the bulk-invite script (src/ethos/scripts/ops/bulk_invite.py)
against its specification.

The program is embedded shallowly:

* a file line is a `List Char`; the file system is a partial map from paths
  to the list of lines of the file (`none` models a missing or unreadable
  file, on which Python `open` raises `FileNotFoundError`/`IOError`);
* the shell is an oracle `List Char → Nat` giving the exit status that
  `subprocess.run(cmd_str, shell=True)` would return for a command string;
* console output and process launches are recorded as a trace of `Event`s.
-/

namespace BulkInvite

/-- The characters removed by the Python `str.strip()` method (ASCII
whitespace; the addresses handled by the script are ASCII). -/
def isSpace (c : Char) : Bool :=
  c == ' ' || c == '\t' || c == '\n' || c == '\r' || c == '\x0b' || c == '\x0c'

/-- Python `line.strip()`: remove leading and trailing whitespace. -/
def strip (l : List Char) : List Char :=
  ((l.dropWhile isSpace).reverse.dropWhile isSpace).reverse

/-- The error kind raised by `open` on a missing or unreadable file
(`FileNotFoundError` / `IOError`), which `read_addresses` does not catch. -/
inductive OSErr where
  | fileNotFound
deriving DecidableEq, Repr

/-- Embeds `read_addresses` (lines 5-7):
`return [line.strip() for line in f if line.strip()]`.
`fs` is the file system; a `none` lookup aborts with the I/O error. -/
def read_addresses (fs : String → Option (List (List Char))) (file_path : String) :
    Except OSErr (List (List Char)) :=
  match fs file_path with
  | none => .error .fileNotFound
  | some lines => .ok ((lines.filter (fun line => !(strip line).isEmpty)).map strip)

/-- One observable step of the program: a printed console line or the launch
of an external shell command. -/
inductive Event where
  | print (line : List Char)
  | launch (cmd : List Char)
deriving DecidableEq, Repr

/-- Decimal rendering of a number, as Python string interpolation does. -/
def natStr (n : Nat) : List Char := (toString n).data

/-- The fixed leading tokens of the command (line 10):
`cmd = ['ETHOS_CLI_ENV=testnet', 'ethos', 'invite', 'bulk', '--wait']`. -/
def base_cmd : List (List Char) :=
  ["ETHOS_CLI_ENV=testnet".data, "ethos".data, "invite".data, "bulk".data,
   "--wait".data]

/-- The token list after the loop of lines 12-13 appended `['-r', addr]` for
each address. -/
def cmd_tokens (addresses : List (List Char)) : List (List Char) :=
  base_cmd ++ addresses.flatMap (fun addr => ["-r".data, addr])

/-- Line 15: `cmd_str = ' '.join(cmd)`. -/
def cmd_str (addresses : List (List Char)) : List Char :=
  List.intercalate " ".data (cmd_tokens addresses)

/-- The ASCII single-quote character (used in the text of
`subprocess.CalledProcessError`). -/
def squote : Char := Char.ofNat 39

/-- Line 18 output. -/
def dry_header : List Char := "Dry run: Command that would be executed:".data

/-- Line 20 output: `f"This would send invites to {len(addresses)} addresses."`. -/
def dry_count_msg (n : Nat) : List Char :=
  "This would send invites to ".data ++ natStr n ++ " addresses.".data

/-- Line 24 output: `f"Successfully sent invites to {len(addresses)} addresses."`. -/
def success_msg (n : Nat) : List Char :=
  "Successfully sent invites to ".data ++ natStr n ++ " addresses.".data

/-- Line 26 output: `f"Error sending invites: {e}"` where `e` is the
`CalledProcessError`, whose text is
`Command <cmd> returned non-zero exit status <code>.` with the command
quoted. -/
def error_msg (cmd : List Char) (code : Nat) : List Char :=
  "Error sending invites: Command ".data ++ [squote] ++ cmd ++ [squote] ++
    " returned non-zero exit status ".data ++ natStr code ++ ".".data

/-- Embeds `send_invites` (lines 9-26) as the event trace it produces.
In dry-run mode it only prints; otherwise it launches `cmd_str` through the
shell with `check=True` and reports success on exit status zero, or catches
the `CalledProcessError` and reports it on any non-zero status. -/
def send_invites (shell : List Char → Nat) (addresses : List (List Char))
    (dry_run : Bool) : List Event :=
  let c := cmd_str addresses
  if dry_run then
    [.print dry_header, .print c, .print (dry_count_msg addresses.length)]
  else if shell c = 0 then
    [.launch c, .print (success_msg addresses.length)]
  else
    [.launch c, .print (error_msg c (shell c))]

/-- Modelled from the spec: line 33 of the source,
`input_file = 'extracted_wallets.txt't`, is not a valid assignment (a stray
`t` follows the closing quote, a Python `SyntaxError`); the spec fixes the
intended hard-coded path as the plain file name. -/
def input_file : String := "extracted_wallets.txt"

/-- Line 36: `batch_size = 25`. -/
def batch_size : Nat := 25

/-- Python `range(start, stop, step)` for a non-negative step; `range` with
step `0` raises and is never used by the program, embedded as the empty
list. -/
def pyRange (start stop step : Nat) : List Nat :=
  if step = 0 then []
  else (List.range ((stop - start + (step - 1)) / step)).map
    (fun k => start + step * k)

/-- Python slice `l[i:j]` on a list with non-negative bounds. -/
def pySlice (l : List (List Char)) (i j : Nat) : List (List Char) :=
  (l.drop i).take (j - i)

/-- The batches the driver loop of lines 38-39 iterates over:
`addresses[i:i+batch_size]` for `i in range(0, len(addresses), batch_size)`. -/
def batches (addresses : List (List Char)) (bs : Nat) : List (List (List Char)) :=
  (pyRange 0 addresses.length bs).map (fun i => pySlice addresses i (i + bs))

/-- Line 40 output:
`f"Processing batch {i//batch_size + 1} ({len(batch)} addresses)"`. -/
def banner_msg (num size : Nat) : List Char :=
  "Processing batch ".data ++ natStr num ++ " (".data ++ natStr size ++
    " addresses)".data

/-- Embeds `main` (lines 28-41): read the addresses from the fixed input
file, then for each slice of `batch_size` addresses print the banner and run
`send_invites`.  An I/O error from `read_addresses` propagates and aborts
the run before any event is produced. -/
def main_run (fs : String → Option (List (List Char))) (shell : List Char → Nat)
    (dry_run : Bool) : Except OSErr (List Event) :=
  match read_addresses fs input_file with
  | .error e => .error e
  | .ok addresses =>
      .ok ((pyRange 0 addresses.length batch_size).flatMap (fun i =>
        let batch := pySlice addresses i (i + batch_size)
        Event.print (banner_msg (i / batch_size + 1) batch.length) ::
          send_invites shell batch dry_run))

/-- The sequence of batches a run of `main` processes (lines 35-39),
as a function of the file system alone. -/
def main_batches (fs : String → Option (List (List Char))) :
    Except OSErr (List (List (List Char))) :=
  (read_addresses fs input_file).map (fun addresses => batches addresses batch_size)

/-- The events a run of the program produces: none at all when it aborts on
the input error. -/
def runEvents (fs : String → Option (List (List Char))) (shell : List Char → Nat)
    (dry_run : Bool) : List Event :=
  match main_run fs shell dry_run with
  | .error _ => []
  | .ok evs => evs

/-- The commands launched in a trace, in order. -/
def launches (evs : List Event) : List (List Char) :=
  evs.filterMap (fun e => match e with | .launch c => some c | .print _ => none)

/-- Reference chunking function: repeatedly split off the first `bs`
elements.  Used to reason about `batches` by recursion. -/
def chunk {α : Type} (bs : Nat) (l : List α) : List (List α) :=
  match l, bs with
  | [], _ => []
  | _ :: _, 0 => []
  | a :: t, b + 1 => (a :: t).take (b + 1) :: chunk (b + 1) ((a :: t).drop (b + 1))
termination_by l.length
decreasing_by
  simp only [List.length_drop, List.length_cons]
  omega

/-! ### Helper lemmas about the batcher -/

/-- Ceiling-division step: removing one full block of `bs` elements removes
exactly one batch from the count. -/
lemma ceil_step (bs n : Nat) (hbs : 0 < bs) (hn : 0 < n) :
    (n + (bs - 1)) / bs = ((n - bs) + (bs - 1)) / bs + 1 := by
  have h1 : n + (bs - 1) = (n - 1) + bs := by omega
  rw [h1, Nat.add_div_right _ hbs]
  rcases le_or_lt n bs with hle | hlt
  · have h2 : n - bs = 0 := by omega
    rw [h2, Nat.zero_add, Nat.div_eq_of_lt (by omega), Nat.div_eq_of_lt (by omega)]
  · have h3 : (n - bs) + (bs - 1) = (n - 1 - bs) + bs := by omega
    rw [h3, Nat.add_div_right _ hbs]
    have h4 : n - 1 = (n - 1 - bs) + bs := by omega
    rw [h4, Nat.add_div_right _ hbs, Nat.add_sub_cancel]

lemma pyRange_zero_stop (bs : Nat) : pyRange 0 0 bs = [] := by
  unfold pyRange
  rcases Nat.eq_zero_or_pos bs with rfl | hbs
  · simp
  · rw [if_neg hbs.ne', Nat.zero_sub, Nat.zero_add, Nat.div_eq_of_lt (by omega)]
    simp

/-- Unfolding a `range(0, n, bs)` loop into its first index and the rest. -/
lemma pyRange_cons (n bs : Nat) (hbs : 0 < bs) (hn : 0 < n) :
    pyRange 0 n bs = 0 :: (pyRange 0 (n - bs) bs).map (fun i => i + bs) := by
  unfold pyRange
  rw [if_neg hbs.ne', if_neg hbs.ne', Nat.sub_zero, Nat.sub_zero,
    ceil_step bs n hbs hn, List.range_succ_eq_map]
  simp only [List.map_cons, List.map_map, Nat.zero_add, Nat.mul_zero]
  refine congrArg (0 :: ·) ?_
  refine List.map_congr_left (fun k _ => ?_)
  simp [Nat.mul_succ]

lemma batches_nil (bs : Nat) : batches [] bs = [] := by
  simp [batches, pyRange_zero_stop]

/-- One step of the driver loop: the first batch is the first `bs` addresses
and the remaining batches are the batches of the rest. -/
lemma batches_cons_step (l : List (List Char)) (bs : Nat) (hbs : 0 < bs)
    (hl : l ≠ []) : batches l bs = l.take bs :: batches (l.drop bs) bs := by
  have hn : 0 < l.length := List.length_pos.mpr hl
  unfold batches
  rw [pyRange_cons l.length bs hbs hn]
  simp only [List.map_cons, List.map_map, List.length_drop]
  refine congrArg₂ (· :: ·) ?_ ?_
  · simp [pySlice]
  · refine List.map_congr_left (fun i _ => ?_)
    simp only [Function.comp_apply, pySlice, List.drop_drop]
    have h1 : i + bs + bs - (i + bs) = bs := by omega
    have h2 : i + bs - i = bs := by omega
    have h3 : bs + i = i + bs := by omega
    rw [h1, h2, h3]

lemma chunk_nil {α : Type} (bs : Nat) : chunk bs ([] : List α) = [] := by
  unfold chunk
  rfl

lemma chunk_cons {α : Type} (bs : Nat) (l : List α) (hbs : 0 < bs)
    (hl : l ≠ []) : chunk bs l = l.take bs :: chunk bs (l.drop bs) := by
  rcases l with _ | ⟨a, t⟩
  · exact absurd rfl hl
  · rcases bs with _ | b
    · exact absurd rfl hbs.ne'
    · rw [chunk]

lemma batches_eq_chunk_aux (bs : Nat) (hbs : 0 < bs) :
    ∀ (n : Nat) (l : List (List Char)), l.length ≤ n → batches l bs = chunk bs l := by
  intro n
  induction n with
  | zero =>
      intro l hl
      have : l = [] := List.eq_nil_of_length_eq_zero (Nat.le_zero.mp hl)
      subst this
      rw [batches_nil, chunk_nil]
  | succ n ih =>
      intro l hl
      rcases eq_or_ne l [] with rfl | hne
      · rw [batches_nil, chunk_nil]
      · have hlen : 0 < l.length := List.length_pos.mpr hne
        rw [batches_cons_step l bs hbs hne, chunk_cons bs l hbs hne,
          ih (l.drop bs) (by simp only [List.length_drop]; omega)]

/-- The slice-by-slice loop of the driver computes exactly the repeated
head-chunking of the address list. -/
lemma batches_eq_chunk (bs : Nat) (hbs : 0 < bs) (l : List (List Char)) :
    batches l bs = chunk bs l :=
  batches_eq_chunk_aux bs hbs l.length l le_rfl

lemma chunk_flatten_aux {α : Type} (bs : Nat) (hbs : 0 < bs) :
    ∀ (n : Nat) (l : List α), l.length ≤ n → (chunk bs l).flatten = l := by
  intro n
  induction n with
  | zero =>
      intro l hl
      have : l = [] := List.eq_nil_of_length_eq_zero (Nat.le_zero.mp hl)
      subst this
      rw [chunk_nil]
      rfl
  | succ n ih =>
      intro l hl
      rcases eq_or_ne l [] with rfl | hne
      · rw [chunk_nil]; rfl
      · have hlen : 0 < l.length := List.length_pos.mpr hne
        rw [chunk_cons bs l hbs hne, List.flatten_cons,
          ih (l.drop bs) (by simp only [List.length_drop]; omega),
          List.take_append_drop]

/-- Concatenating the chunks restores the original list. -/
lemma chunk_flatten {α : Type} (bs : Nat) (hbs : 0 < bs) (l : List α) :
    (chunk bs l).flatten = l :=
  chunk_flatten_aux bs hbs l.length l le_rfl

lemma chunk_length_aux {α : Type} (bs : Nat) (hbs : 0 < bs) :
    ∀ (n : Nat) (l : List α), l.length ≤ n →
      (chunk bs l).length = (l.length + (bs - 1)) / bs := by
  intro n
  induction n with
  | zero =>
      intro l hl
      have : l = [] := List.eq_nil_of_length_eq_zero (Nat.le_zero.mp hl)
      subst this
      rw [chunk_nil]
      simp [Nat.div_eq_of_lt (show bs - 1 < bs by omega)]
  | succ n ih =>
      intro l hl
      rcases eq_or_ne l [] with rfl | hne
      · rw [chunk_nil]
        simp [Nat.div_eq_of_lt (show bs - 1 < bs by omega)]
      · have hlen : 0 < l.length := List.length_pos.mpr hne
        rw [chunk_cons bs l hbs hne, List.length_cons,
          ih (l.drop bs) (by simp only [List.length_drop]; omega),
          List.length_drop, ceil_step bs l.length hbs hlen]

/-- The number of chunks is the ceiling of `length / bs`. -/
lemma chunk_length {α : Type} (bs : Nat) (hbs : 0 < bs) (l : List α) :
    (chunk bs l).length = (l.length + (bs - 1)) / bs :=
  chunk_length_aux bs hbs l.length l le_rfl

lemma chunk_mem_aux {α : Type} (bs : Nat) (hbs : 0 < bs) :
    ∀ (n : Nat) (l : List α), l.length ≤ n →
      ∀ b ∈ chunk bs l, 0 < b.length ∧ b.length ≤ bs := by
  intro n
  induction n with
  | zero =>
      intro l hl
      have : l = [] := List.eq_nil_of_length_eq_zero (Nat.le_zero.mp hl)
      subst this
      rw [chunk_nil]
      intro b hb
      exact absurd hb (List.not_mem_nil b)
  | succ n ih =>
      intro l hl
      rcases eq_or_ne l [] with rfl | hne
      · rw [chunk_nil]
        intro b hb
        exact absurd hb (List.not_mem_nil b)
      · have hlen : 0 < l.length := List.length_pos.mpr hne
        rw [chunk_cons bs l hbs hne]
        intro b hb
        rcases List.mem_cons.mp hb with rfl | hb
        · constructor
          · simp only [List.length_take]
            omega
          · simp only [List.length_take]
            omega
        · exact ih (l.drop bs) (by simp only [List.length_drop]; omega) b hb

/-- Every chunk is non-empty and holds at most `bs` elements. -/
lemma chunk_mem {α : Type} (bs : Nat) (hbs : 0 < bs) (l : List α) :
    ∀ b ∈ chunk bs l, 0 < b.length ∧ b.length ≤ bs :=
  chunk_mem_aux bs hbs l.length l le_rfl

lemma chunk_ne_nil {α : Type} (bs : Nat) (hbs : 0 < bs) (l : List α)
    (hl : l ≠ []) : chunk bs l ≠ [] := by
  rw [chunk_cons bs l hbs hl]
  exact List.cons_ne_nil _ _

lemma chunk_dropLast_aux {α : Type} (bs : Nat) (hbs : 0 < bs) :
    ∀ (n : Nat) (l : List α), l.length ≤ n →
      ∀ b ∈ (chunk bs l).dropLast, b.length = bs := by
  intro n
  induction n with
  | zero =>
      intro l hl
      have : l = [] := List.eq_nil_of_length_eq_zero (Nat.le_zero.mp hl)
      subst this
      rw [chunk_nil]
      intro b hb
      exact absurd hb (List.not_mem_nil b)
  | succ n ih =>
      intro l hl
      rcases eq_or_ne l [] with rfl | hne
      · rw [chunk_nil]
        intro b hb
        exact absurd hb (List.not_mem_nil b)
      · rw [chunk_cons bs l hbs hne]
        rcases eq_or_ne (l.drop bs) [] with hd | hd
        · rw [hd, chunk_nil]
          intro b hb
          exact absurd hb (List.not_mem_nil b)
        · have hblen : bs < l.length := by
            by_contra hle
            exact hd (List.drop_eq_nil_of_le (by omega))
          rw [List.dropLast_cons_of_ne_nil (chunk_ne_nil bs hbs _ hd)]
          intro b hb
          rcases List.mem_cons.mp hb with rfl | hb
          · simp only [List.length_take]
            omega
          · exact ih (l.drop bs) (by simp only [List.length_drop]; omega) b hb

/-- Every chunk except possibly the last is full. -/
lemma chunk_dropLast {α : Type} (bs : Nat) (hbs : 0 < bs) (l : List α) :
    ∀ b ∈ (chunk bs l).dropLast, b.length = bs :=
  chunk_dropLast_aux bs hbs l.length l le_rfl

/-- The `j`-th batch is the contiguous slice starting at index `bs * j`. -/
lemma batches_get (addrs : List (List Char)) (bs : Nat) (hbs : 0 < bs) :
    ∀ (j : Nat) (h : j < (batches addrs bs).length),
      (batches addrs bs).get ⟨j, h⟩ = (addrs.drop (bs * j)).take bs := by
  have hb : batches addrs bs =
      (List.range ((addrs.length + (bs - 1)) / bs)).map
        (fun k => pySlice addrs (bs * k) (bs * k + bs)) := by
    unfold batches pyRange
    rw [if_neg hbs.ne', Nat.sub_zero, List.map_map]
    refine List.map_congr_left (fun k _ => ?_)
    simp [pySlice]
  rw [hb]
  intro j h
  simp only [List.get_eq_getElem, List.getElem_map, List.getElem_range]
  simp [pySlice, Nat.add_sub_cancel_left]

/-! ### Claims C1 and C2: the batching -/

/-- C1: for every address list of `N` elements the driver loop produces
exactly `ceil(N / 25)` batches, concatenating the batches in order restores
the address list, and a list of 60 addresses yields three batches of sizes
25, 25 and 10, in that order. -/
theorem c1_driver_batching (addrs : List (List Char)) :
    (batches addrs batch_size).length = (addrs.length + 24) / 25 ∧
    (batches addrs batch_size).flatten = addrs ∧
    (addrs.length = 60 →
      (batches addrs batch_size).map List.length = [25, 25, 10]) := by
  have hbs : (0 : Nat) < batch_size := by decide
  refine ⟨?_, ?_, ?_⟩
  · rw [batches_eq_chunk _ hbs, chunk_length _ hbs]
    norm_num [batch_size]
  · rw [batches_eq_chunk _ hbs, chunk_flatten _ hbs]
  · intro h60
    have h1 : addrs ≠ [] := by
      intro h
      rw [h] at h60
      simp at h60
    rw [batches_cons_step addrs batch_size hbs h1]
    have hd1 : (addrs.drop batch_size).length = 35 := by
      simp [List.length_drop, h60, batch_size]
    have h2 : addrs.drop batch_size ≠ [] := by
      intro h
      rw [h] at hd1
      simp at hd1
    rw [batches_cons_step _ _ hbs h2]
    have hd2 : ((addrs.drop batch_size).drop batch_size).length = 10 := by
      simp only [List.length_drop, batch_size]
      omega
    have h3 : (addrs.drop batch_size).drop batch_size ≠ [] := by
      intro h
      rw [h] at hd2
      simp at hd2
    rw [batches_cons_step _ _ hbs h3]
    have hd3 : (((addrs.drop batch_size).drop batch_size).drop batch_size).length = 0 := by
      simp only [List.length_drop, batch_size]
      omega
    rw [List.eq_nil_of_length_eq_zero hd3, batches_nil]
    simp [List.length_take, h60, hd1, hd2, batch_size]

/-- Witness for C1 at a concrete 60-element list. -/
theorem c1_driver_batching_witness :
    (batches (List.replicate 60 ([] : List Char)) batch_size).map List.length =
      [25, 25, 10] :=
  (c1_driver_batching (List.replicate 60 [])).2.2 (by simp)

/-- C2: every batch except possibly the last has exactly 25 elements, every
batch is non-empty with at most 25 elements, the batches concatenate back to
the whole list (so they are non-overlapping and cover it in order), and the
`j`-th batch is the contiguous slice of the address list starting at index
`25 * j`. -/
theorem c2_batch_shape (addrs : List (List Char)) :
    (∀ b ∈ (batches addrs batch_size).dropLast, b.length = 25) ∧
    (∀ b ∈ batches addrs batch_size, 0 < b.length ∧ b.length ≤ 25) ∧
    (batches addrs batch_size).flatten = addrs ∧
    (∀ (j : Nat) (h : j < (batches addrs batch_size).length),
      (batches addrs batch_size).get ⟨j, h⟩ = (addrs.drop (25 * j)).take 25) := by
  have hbs : (0 : Nat) < batch_size := by decide
  refine ⟨?_, ?_, ?_, ?_⟩
  · rw [batches_eq_chunk _ hbs]
    exact chunk_dropLast batch_size hbs addrs
  · rw [batches_eq_chunk _ hbs]
    exact chunk_mem batch_size hbs addrs
  · rw [batches_eq_chunk _ hbs, chunk_flatten _ hbs]
  · exact batches_get addrs batch_size hbs

/-- Witness for C2 at a concrete 30-element list, whose first batch is full. -/
theorem c2_batch_shape_witness :
    0 < (List.replicate 25 ([] : List Char)).length ∧
      (List.replicate 25 ([] : List Char)).length ≤ 25 :=
  (c2_batch_shape (List.replicate 30 [])).2.1 (List.replicate 25 []) (by decide)

/-! ### Helper lemmas about the address loader -/

lemma dropWhile_head_not {α : Type} (p : α → Bool) (l : List α) (c : α)
    (h : (l.dropWhile p).head? = some c) : p c = false := by
  induction l with
  | nil => simp [List.dropWhile] at h
  | cons a t ih =>
      rw [List.dropWhile_cons] at h
      by_cases hp : p a
      · rw [if_pos hp] at h
        exact ih h
      · rw [if_neg hp] at h
        simp only [List.head?_cons, Option.some.injEq] at h
        subst h
        simpa using hp

/-- A line made of whitespace only strips to the empty string, exactly like
an empty line. -/
lemma strip_all_space (l : List Char) (h : l.all isSpace = true) :
    strip l = [] := by
  have h1 : l.dropWhile isSpace = [] :=
    List.dropWhile_eq_nil_iff.mpr (fun x hx => List.all_eq_true.mp h x hx)
  simp [strip, h1]

/-- Stripping only removes characters at the two ends: the result is a
contiguous piece of the line, with interior whitespace untouched. -/
lemma strip_infix (l : List Char) : strip l <:+: l := by
  have hsuf : l.dropWhile isSpace <:+ l := List.dropWhile_suffix _
  have h2 : (l.dropWhile isSpace).reverse.dropWhile isSpace <:+
      (l.dropWhile isSpace).reverse := List.dropWhile_suffix _
  have hpre : strip l <+: l.dropWhile isSpace := by
    have h3 := h2.reverse
    rwa [List.reverse_reverse] at h3
  exact List.infix_iff_prefix_suffix.mpr ⟨_, hpre, hsuf⟩

/-- A stripped line never starts with whitespace. -/
lemma strip_head_not_space (l : List Char) (c : Char)
    (h : (strip l).head? = some c) : isSpace c = false := by
  unfold strip at h
  rw [List.head?_reverse] at h
  obtain ⟨pre, hpre⟩ :=
    List.dropWhile_suffix (l := (l.dropWhile isSpace).reverse) isSpace
  have hys : (l.dropWhile isSpace).reverse.getLast? = some c := by
    rw [← hpre, List.getLast?_append, h]
    rfl
  rw [List.getLast?_reverse] at hys
  exact dropWhile_head_not isSpace l c hys

/-- A stripped line never ends with whitespace. -/
lemma strip_getLast_not_space (l : List Char) (c : Char)
    (h : (strip l).getLast? = some c) : isSpace c = false := by
  unfold strip at h
  rw [List.getLast?_reverse] at h
  exact dropWhile_head_not isSpace _ c h

lemma read_addresses_some (fs : String → Option (List (List Char)))
    (path : String) (lines : List (List Char)) (hfs : fs path = some lines) :
    read_addresses fs path =
      .ok ((lines.filter (fun line => !(strip line).isEmpty)).map strip) := by
  unfold read_addresses
  rw [hfs]

lemma mem_read_addresses (lines : List (List Char)) (a : List Char)
    (ha : a ∈ (lines.filter (fun line => !(strip line).isEmpty)).map strip) :
    a ≠ [] ∧ ∃ line ∈ lines, a = strip line := by
  obtain ⟨line, hline, rfl⟩ := List.mem_map.mp ha
  obtain ⟨hmem, hq⟩ := List.mem_filter.mp hline
  refine ⟨?_, line, hmem, rfl⟩
  intro hnil
  rw [hnil] at hq
  simp at hq

/-! ### Claims C3 and C10: the address loader -/

/-- C3: on a readable file the loader returns exactly the whitespace-trimmed
non-blank lines, in file order (a sublist of the trimmed lines), with no
empty entries, with every non-blank line retained (no validation), with
duplicates kept (the multiplicity of each address equals the number of lines
trimming to it), and hence no batch ever holds a blank line. -/
theorem c3_loader (fs : String → Option (List (List Char))) (path : String)
    (lines : List (List Char)) (hfs : fs path = some lines) :
    ∃ result, read_addresses fs path = .ok result ∧
      result = (lines.filter (fun line => !(strip line).isEmpty)).map strip ∧
      result.Sublist (lines.map strip) ∧
      (∀ a ∈ result, a ≠ []) ∧
      (∀ line ∈ lines, strip line ≠ [] → strip line ∈ result) ∧
      (∀ v : List Char, v ≠ [] →
        result.count v = lines.countP (fun line => strip line == v)) ∧
      (∀ b ∈ batches result batch_size, ∀ a ∈ b, a ≠ []) := by
  refine ⟨_, read_addresses_some fs path lines hfs, rfl, ?_, ?_, ?_, ?_, ?_⟩
  · exact (List.filter_sublist lines).map strip
  · intro a ha
    exact (mem_read_addresses lines a ha).1
  · intro line hline hne
    refine List.mem_map.mpr ⟨line, List.mem_filter.mpr ⟨hline, ?_⟩, rfl⟩
    simp [List.isEmpty_iff, hne]
  · intro v hv
    rw [List.count_eq_countP, List.countP_map, List.countP_filter]
    refine List.countP_congr (fun line _ => ?_)
    simp only [Function.comp_apply, Bool.and_eq_true]
    constructor
    · intro h
      exact h.1
    · intro h
      refine ⟨h, ?_⟩
      have hsv : strip line = v := beq_iff_eq.mp h
      simp [hsv, List.isEmpty_iff, hv]
  · intro b hb a hab
    have hflat := chunk_flatten batch_size (by decide)
      ((lines.filter (fun line => !(strip line).isEmpty)).map strip)
    rw [← batches_eq_chunk batch_size (by decide)] at hflat
    have hmem : a ∈ (lines.filter (fun line => !(strip line).isEmpty)).map strip := by
      rw [← hflat]
      exact List.mem_flatten.mpr ⟨b, hb, hab⟩
    exact (mem_read_addresses lines a hmem).1

/-- Witness for C3 on a two-line file with one blank line. -/
theorem c3_loader_witness :
    ∃ result,
      read_addresses
        (fun p => if p = "w.txt" then some [" a ".data, "  ".data] else none)
        "w.txt" = .ok result ∧
      (∀ a ∈ result, a ≠ []) := by
  obtain ⟨result, h1, _, _, h4, _, _, _⟩ :=
    c3_loader (fun p => if p = "w.txt" then some [" a ".data, "  ".data] else none)
      "w.txt" [" a ".data, "  ".data] (by simp)
  exact ⟨result, h1, h4⟩

/-- C10 (implicit): a line of whitespace only is dropped exactly like an
empty line; every retained address is non-empty, starts and ends with a
non-whitespace character, and is a contiguous piece of its input line (so
interior whitespace is preserved); no batch ever holds an empty address. -/
theorem c10_whitespace (fs : String → Option (List (List Char))) (path : String)
    (lines : List (List Char)) (hfs : fs path = some lines)
    (result : List (List Char)) (hres : read_addresses fs path = .ok result) :
    (∀ line : List Char, line.all isSpace = true → strip line = []) ∧
    (∀ a ∈ result,
      a ≠ [] ∧
      (∀ c : Char, a.head? = some c → isSpace c = false) ∧
      (∀ c : Char, a.getLast? = some c → isSpace c = false) ∧
      (∃ line ∈ lines, a <:+: line)) ∧
    (∀ b ∈ batches result batch_size, ∀ a ∈ b, a ≠ []) := by
  rw [read_addresses_some fs path lines hfs] at hres
  have hr : result = (lines.filter (fun line => !(strip line).isEmpty)).map strip := by
    cases hres
    rfl
  subst hr
  refine ⟨fun line => strip_all_space line, ?_, ?_⟩
  · intro a ha
    obtain ⟨hne, line, hline, rfl⟩ := mem_read_addresses lines a ha
    exact ⟨hne, fun c hc => strip_head_not_space line c hc,
      fun c hc => strip_getLast_not_space line c hc, line, hline, strip_infix line⟩
  · intro b hb a hab
    have hflat := chunk_flatten batch_size (by decide)
      ((lines.filter (fun line => !(strip line).isEmpty)).map strip)
    rw [← batches_eq_chunk batch_size (by decide)] at hflat
    have hmem : a ∈ (lines.filter (fun line => !(strip line).isEmpty)).map strip := by
      rw [← hflat]
      exact List.mem_flatten.mpr ⟨b, hb, hab⟩
    exact (mem_read_addresses lines a hmem).1

/-- Witness for C10 on a file holding a whitespace-only line and a padded
address. -/
theorem c10_whitespace_witness :
    strip " \t ".data = [] :=
  (c10_whitespace
    (fun p => if p = "w.txt" then some ["\t x y \t".data, " \t ".data] else none)
    "w.txt" ["\t x y \t".data, " \t ".data] (by simp)
    ["x y".data] (by rfl)).1 " \t ".data (by decide)

/-! ### Helper lemmas about event traces and the command string -/

lemma launches_nil : launches [] = [] := rfl

lemma launches_append (l1 l2 : List Event) :
    launches (l1 ++ l2) = launches l1 ++ launches l2 := by
  unfold launches
  rw [List.filterMap_append]

lemma launches_flatMap (idxs : List Nat) (f : Nat → List Event) :
    launches (idxs.flatMap f) = idxs.flatMap (fun i => launches (f i)) := by
  induction idxs with
  | nil => rfl
  | cons i t ih => rw [List.flatMap_cons, List.flatMap_cons, launches_append, ih]

lemma launches_print_cons (line : List Char) (evs : List Event) :
    launches (Event.print line :: evs) = launches evs := by
  unfold launches
  rw [List.filterMap_cons]

lemma launches_launch_cons (c : List Char) (evs : List Event) :
    launches (Event.launch c :: evs) = c :: launches evs := by
  unfold launches
  rw [List.filterMap_cons]

/-- A dry-run invocation of the sender produces the three prints and nothing
else, whatever the shell would have answered. -/
lemma send_invites_dry (shell : List Char → Nat) (addresses : List (List Char)) :
    send_invites shell addresses true =
      [.print dry_header, .print (cmd_str addresses),
       .print (dry_count_msg addresses.length)] := rfl

/-- A live invocation launches the command string exactly once, whether it
succeeds or fails. -/
lemma launches_send_invites_live (shell : List Char → Nat)
    (addresses : List (List Char)) :
    launches (send_invites shell addresses false) = [cmd_str addresses] := by
  unfold send_invites
  by_cases h : shell (cmd_str addresses) = 0
  · rw [if_neg Bool.false_ne_true, if_pos h, launches_launch_cons,
      launches_print_cons, launches_nil]
  · rw [if_neg Bool.false_ne_true, if_neg h, launches_launch_cons,
      launches_print_cons, launches_nil]

lemma flatMap_singleton_fun {α β : Type} (l : List α) (g : α → β) :
    l.flatMap (fun x => [g x]) = l.map g := by
  induction l with
  | nil => rfl
  | cons a t ih =>
      rw [List.flatMap_cons, List.map_cons, ih]
      rfl

lemma main_run_ok (fs : String → Option (List (List Char)))
    (shell : List Char → Nat) (dry_run : Bool) (lines : List (List Char))
    (hfs : fs input_file = some lines) :
    main_run fs shell dry_run =
      .ok ((pyRange 0 ((lines.filter (fun line => !(strip line).isEmpty)).map strip).length batch_size).flatMap
        (fun i =>
          Event.print (banner_msg (i / batch_size + 1)
              (pySlice ((lines.filter (fun line => !(strip line).isEmpty)).map strip)
                i (i + batch_size)).length) ::
            send_invites shell
              (pySlice ((lines.filter (fun line => !(strip line).isEmpty)).map strip)
                i (i + batch_size)) dry_run)) := by
  unfold main_run
  rw [read_addresses_some fs input_file lines hfs]

lemma intercalate_cons_cons (sep x y : List Char) (t : List (List Char)) :
    List.intercalate sep (x :: y :: t) =
      x ++ sep ++ List.intercalate sep (y :: t) := by
  simp [List.intercalate, List.intersperse_cons_cons]

lemma intercalate_snoc (sep y : List Char) :
    ∀ (xs : List (List Char)) (x : List Char),
      List.intercalate sep (x :: (xs ++ [y])) =
        List.intercalate sep (x :: xs) ++ sep ++ y := by
  intro xs
  induction xs with
  | nil =>
      intro x
      simp [List.intercalate, List.intersperse_cons_cons]
  | cons z zs ih =>
      intro x
      have h1 : x :: (z :: zs ++ [y]) = x :: z :: (zs ++ [y]) := by simp
      rw [h1, intercalate_cons_cons, ih z, intercalate_cons_cons]
      simp [List.append_assoc]

/-- Joining the fixed head tokens followed by extra tokens with spaces
appends each extra token after one space. -/
lemma intercalate_append_tokens (sep : List Char) :
    ∀ (ys : List (List Char)) (x : List Char) (xs : List (List Char)),
      List.intercalate sep ((x :: xs) ++ ys) =
        List.intercalate sep (x :: xs) ++ ys.flatMap (fun y => sep ++ y) := by
  intro ys
  induction ys with
  | nil =>
      intro x xs
      simp
  | cons y yt ih =>
      intro x xs
      have h1 : (x :: xs) ++ (y :: yt) = (x :: (xs ++ [y])) ++ yt := by simp
      rw [h1, ih x (xs ++ [y]), intercalate_snoc]
      simp [List.append_assoc]

/-! ### Claims C4, C5 and C6: the invite sender -/

/-- C4: with the dry-run flag the sender prints the full command string and
a count equal to the batch length, launches nothing, never fails, and its
output does not depend on the shell at all; a whole dry-run of the driver
launches nothing either. -/
theorem c4_dry_run (shell shell2 : List Char → Nat) (addresses : List (List Char))
    (fs : String → Option (List (List Char))) :
    launches (send_invites shell addresses true) = [] ∧
    send_invites shell addresses true = send_invites shell2 addresses true ∧
    send_invites shell addresses true =
      [.print dry_header, .print (cmd_str addresses),
       .print (dry_count_msg addresses.length)] ∧
    (∀ evs, main_run fs shell true = .ok evs → launches evs = []) := by
  refine ⟨rfl, rfl, send_invites_dry shell addresses, ?_⟩
  intro evs hevs
  unfold main_run at hevs
  cases hread : read_addresses fs input_file with
  | error e =>
      rw [hread] at hevs
      exact Except.noConfusion hevs
  | ok addrs =>
      rw [hread] at hevs
      cases hevs
      rw [launches_flatMap, List.flatMap_eq_nil_iff]
      intro i _
      simp only [launches_print_cons, send_invites_dry, launches_nil]

/-- Witness for C4 on a one-line file with a shell that would fail. -/
theorem c4_dry_run_witness :
    ∃ evs, main_run (fun _ => some ["w1".data]) (fun _ => 7) true = .ok evs ∧
      launches evs = [] := by
  obtain ⟨-, -, -, h4⟩ :=
    c4_dry_run (fun _ => 7) (fun _ => 7) [] (fun _ => some ["w1".data])
  exact ⟨_, rfl, h4 _ rfl⟩

/-- C5: without the dry-run flag the sender launches the command and reports
success with the address count on exit status zero, or prints the error
detail on a non-zero status without propagating it; hence a full live run
launches every batch once, in order, whatever statuses the shell returns. -/
theorem c5_live_isolation (shell : List Char → Nat) (addrs : List (List Char))
    (fs : String → Option (List (List Char))) (lines : List (List Char))
    (hfs : fs input_file = some lines) :
    (shell (cmd_str addrs) = 0 →
      send_invites shell addrs false =
        [.launch (cmd_str addrs), .print (success_msg addrs.length)]) ∧
    (shell (cmd_str addrs) ≠ 0 →
      send_invites shell addrs false =
        [.launch (cmd_str addrs),
         .print (error_msg (cmd_str addrs) (shell (cmd_str addrs)))]) ∧
    (∃ evs, main_run fs shell false = .ok evs ∧
      launches evs =
        (batches ((lines.filter (fun line => !(strip line).isEmpty)).map strip)
          batch_size).map cmd_str) := by
  refine ⟨?_, ?_, ?_⟩
  · intro h0
    unfold send_invites
    rw [if_neg Bool.false_ne_true, if_pos h0]
  · intro h0
    unfold send_invites
    rw [if_neg Bool.false_ne_true, if_neg h0]
  · refine ⟨_, main_run_ok fs shell false lines hfs, ?_⟩
    rw [launches_flatMap]
    simp only [launches_print_cons, launches_send_invites_live]
    rw [flatMap_singleton_fun]
    unfold batches
    rw [List.map_map]
    rfl

/-- Witness for C5 on a failing shell: the error is reported, not raised. -/
theorem c5_live_isolation_witness :
    send_invites (fun _ => 1) ["w1".data] false =
      [.launch (cmd_str ["w1".data]),
       .print (error_msg (cmd_str ["w1".data]) 1)] :=
  (c5_live_isolation (fun _ => 1) ["w1".data] (fun _ => some ["w1".data])
    ["w1".data] rfl).2.1 (by decide)

/-- Joining one `-r <address>` token pair, each token after one space. -/
lemma pair_spaced (x : List Char) :
    ["-r".data, x].flatMap (fun y => " ".data ++ y) = " -r ".data ++ x := by
  rw [List.flatMap_cons, List.flatMap_singleton]
  rfl

/-- C6: the command string is the fixed program tokens
`ETHOS_CLI_ENV=testnet ethos invite bulk --wait` followed by one
space-separated `-r <address>` pair per address of the batch, in batch
order, with every address spliced in literally (no escaping). -/
theorem c6_command_construction (addrs : List (List Char)) :
    cmd_tokens addrs = base_cmd ++ addrs.flatMap (fun addr => ["-r".data, addr]) ∧
    cmd_str addrs =
      "ETHOS_CLI_ENV=testnet ethos invite bulk --wait".data ++
        addrs.flatMap (fun addr => " -r ".data ++ addr) := by
  refine ⟨rfl, ?_⟩
  unfold cmd_str cmd_tokens base_cmd
  rw [intercalate_append_tokens " ".data (addrs.flatMap (fun addr => ["-r".data, addr]))]
  rw [List.flatMap_assoc]
  exact congrArg₂ (· ++ ·) (by rfl) (congrArg addrs.flatMap (funext pair_spaced))

/-- C7: a missing or unreadable input file makes the loader fail with the
I/O error kind and the whole run abort at once: no event at all, so no
banner and no external command. -/
theorem c7_missing_input (fs : String → Option (List (List Char)))
    (shell : List Char → Nat) (dry_run : Bool) (hfs : fs input_file = none) :
    read_addresses fs input_file = .error .fileNotFound ∧
    main_run fs shell dry_run = .error .fileNotFound ∧
    runEvents fs shell dry_run = [] ∧
    launches (runEvents fs shell dry_run) = [] := by
  have h1 : read_addresses fs input_file = .error .fileNotFound := by
    unfold read_addresses
    rw [hfs]
  have h2 : main_run fs shell dry_run = .error .fileNotFound := by
    unfold main_run
    rw [h1]
  have h3 : runEvents fs shell dry_run = [] := by
    unfold runEvents
    rw [h2]
  exact ⟨h1, h2, h3, by rw [h3]; rfl⟩

/-- Witness for C7 on an empty file system. -/
theorem c7_missing_input_witness :
    runEvents (fun _ => none) (fun _ => 0) false = [] :=
  (c7_missing_input (fun _ => none) (fun _ => 0) false rfl).2.2.1

/-- C8 support: in the embedding (with the intended hard-coded path, since
line 33 of the source is a `SyntaxError` and never binds it) an empty input
file yields zero batches, produces no banner and no launch, and the run ends
normally. -/
theorem c8_empty_file_driver :
    main_run (fun p => if p = "extracted_wallets.txt" then some [] else none)
      (fun _ => 0) false = .ok [] ∧
    main_batches (fun p => if p = "extracted_wallets.txt" then some [] else none) =
      .ok [] := by
  constructor
  · rw [main_run_ok _ _ _ [] (by rfl)]
    rfl
  · unfold main_batches
    rw [read_addresses_some _ _ [] (by rfl)]
    rfl

/-- C9: the batcher has no hidden state: the batch sequence a run processes
is a function of the file content alone (independent of the shell and of the
mode), and recomputing it from the same inputs gives the same batches. -/
theorem c9_batcher_deterministic (fs₁ fs₂ : String → Option (List (List Char)))
    (h : fs₁ input_file = fs₂ input_file) :
    main_batches fs₁ = main_batches fs₂ ∧
    (∀ (addrs : List (List Char)) (bs : Nat) (run₁ run₂ : List (List (List Char))),
      run₁ = batches addrs bs → run₂ = batches addrs bs → run₁ = run₂) := by
  constructor
  · unfold main_batches read_addresses
    rw [h]
  · intro addrs bs run₁ run₂ h1 h2
    rw [h1, h2]

/-- Witness for C9: two distinct file systems agreeing on the input path
give the same batches. -/
theorem c9_batcher_deterministic_witness :
    main_batches (fun _ => some ["w".data]) =
      main_batches (fun p => if p = "extracted_wallets.txt" then some ["w".data] else none) :=
  (c9_batcher_deterministic (fun _ => some ["w".data])
    (fun p => if p = "extracted_wallets.txt" then some ["w".data] else none)
    (by rfl)).1

end BulkInvite
